import Mathlib

/-!
Verification development for the transactron/coreblocks storage and
arbitration components.  The Lean definitions below are shallow embeddings
of the Python/Amaranth source:

* `Enc` embeds the reference model of the multi-output priority encoder
  from test/transactron/utils/test_amaranth_ext.py (`get_expected` of
  TestMultiPriorityEncoder and TestRingMultiPriorityEncoder).
* `MemoryBank` embeds the cycle semantics of
  transactron/lib/storage.py, class MemoryBank (safe_writes = True,
  granularity = None).
* `CAM` embeds transactron/lib/storage.py, class ContentAddressableMemory.
* `LsuRS` embeds coreblocks/func_blocks/fu/lsu/lsu_rs.py, class LsuRS.

Machine integers are modelled as `Nat` (signal values in range for their
declared widths); where the source adds signals, Amaranth widens the
result, so the embedded sums are carry-preserving and no truncation is
introduced.  Registers are
explicit state records, one step function per clock cycle; a step's
result is the register state after the clock edge together with the
combinational outputs observed during the cycle.
-/

namespace Enc

/-- Embedding of TestMultiPriorityEncoder.get_expected: the list of indices
of set bits of `input` (width `W`), in increasing index order.  The Python
code walks bits from index 0 upward, appending each index whose bit is set,
which is exactly a filter of `List.range W` by `Nat.testBit`. -/
def get_expected (W input : Nat) : List Nat :=
  (List.range W).filter (fun i => input.testBit i)

/-- The `output_count` outputs of the encoder, as `some index` for winners
and `none` for unused (invalid) outputs, following the padding with `None`
in the test model. -/
def outputs (W k input : Nat) : List (Option Nat) :=
  (((get_expected W input).map some) ++ List.replicate k none).take k

/-- Embedding of TestRingMultiPriorityEncoder.get_expected: the input is
doubled (`input * 2^W + input`, the Python `(input << W) + input`), the
half-open window `[first, last)` is unwrapped by adding `W` to `last` when
`last < first`, and winners are the in-window set-bit positions of the
doubled input, reduced `% W`, in window order. -/
def ring_get_expected (W input first last : Nat) : List Nat :=
  let last2 := if last < first then last + W else last
  (((List.range (2 * W)).filter
      (fun i => decide (first ≤ i) && decide (i < last2)
                  && (input * 2 ^ W + input).testBit i)).map
    (fun i => i % W))

/-- The wrapped half-open window `[first, last)` over `W` indices, as a
predicate on an absolute index `j`. -/
def inWindow (W first last j : Nat) : Bool :=
  if last < first then (decide (first ≤ j) && decide (j < W)) || decide (j < last)
  else decide (first ≤ j) && decide (j < last)

end Enc

namespace MemoryBank

/-- Arguments of the write method (granularity = None, so no mask field). -/
structure WriteArgs where
  addr : Nat
  data : Nat
deriving DecidableEq, Repr

/-- Register state of MemoryBank (safe_writes = True).  `mem` is the
synchronous memory, the other fields embed the signals of the same names
in MemoryBank.elaborate.  `resp_buf` models the response side of the
ArgumentsToResultsZipper.  Modelled from the spec: the zipper module itself
(transactron/lib/reqres.py) is not part of the sources; per the spec,
read_resp is ready only after a prior read_req and returns the value read
from the captured address, so the produced read data is buffered here until
read_resp consumes it. -/
structure State where
  mem : List Nat
  read_output_valid : Bool
  prev_read_addr : Nat
  write_pending : Bool
  write_args_prev : WriteArgs
  resp_buf : Option Nat
deriving DecidableEq, Repr

/-- Method calls attempted in one cycle: read_req with its address, write
with its arguments, and whether read_resp is called. -/
structure Input where
  read_req : Option Nat
  write_in : Option WriteArgs
  read_resp_taken : Bool
deriving DecidableEq, Repr

/-- Combinational outputs observed during one cycle: whether read_req and
write actually ran, and the value returned by read_resp when it ran. -/
structure Output where
  read_req_granted : Bool
  write_granted : Bool
  resp : Option Nat
deriving DecidableEq, Repr

/-- The combinational read-port address: `prev_read_addr` by default
(m.d.comb at line 91 of storage.py), overridden by the argument of a
running read_req call (line 122). -/
def readPortAddr (s : State) (inp : Input) : Nat :=
  match inp.read_req with
  | some a => if s.write_pending then s.prev_read_addr else a
  | none => s.prev_read_addr

/-- The read response available during the current cycle: when
`read_output_valid` is set the internal response transaction forwards the
memory output for the captured address this very cycle; otherwise a
previously produced, not yet consumed response may sit in the buffer. -/
def respNow (s : State) : Option Nat :=
  if s.read_output_valid then some (s.mem.getD s.prev_read_addr 0) else s.resp_buf

/-- One clock cycle of MemoryBank with safe_writes = True and granularity
None.  A method runs iff it is called and its declared readiness holds
(read_req and write are both guarded by `~write_pending`).  The write
method defers the write (sets `write_pending`, latching the arguments into
`write_args_prev`) exactly when its address equals the combinational read
port address and a read is in flight or being requested this cycle;
otherwise it raises `write_req` and the write transaction drives the write
port this cycle.  A pending write is issued by the write transaction in the
first cycle in which `read_output_valid` is clear, using the latched
`write_args_prev`.  The returned state holds after the clock edge. -/
def step (s : State) (inp : Input) : State × Output :=
  let readReqRun := inp.read_req.isSome && !s.write_pending
  let rpAddr := readPortAddr s inp
  let writeRun := inp.write_in.isSome && !s.write_pending
  let wa := inp.write_in.getD ⟨0, 0⟩
  let conflict := writeRun && (wa.addr == rpAddr)
                    && (s.read_output_valid || readReqRun)
  let writeReqSig := writeRun && !conflict
  let writeTransFires := writeReqSig || (!s.read_output_valid && s.write_pending)
  let effArgs := if s.write_pending then s.write_args_prev else wa
  let respAvail := respNow s
  let respConsumed := inp.read_resp_taken && respAvail.isSome
  (⟨if writeTransFires then s.mem.set effArgs.addr effArgs.data else s.mem,
    readReqRun,
    if readReqRun then inp.read_req.getD 0 else s.prev_read_addr,
    if conflict then true else if writeTransFires then false else s.write_pending,
    if conflict then wa else s.write_args_prev,
    if respConsumed then none else respAvail⟩,
   ⟨readReqRun, writeRun, if respConsumed then respAvail else none⟩)

/-- Iterated cycles, returning the state after the last clock edge. -/
def run (s : State) (inps : List Input) : State :=
  inps.foldl (fun t i => (step t i).1) s

/-- The idle cycle: no method called. -/
def nop : Input := ⟨none, none, false⟩

end MemoryBank

namespace CAM

/-- Slot state of ContentAddressableMemory: per-slot stored key
(address_array), stored value (data_array) and the valid bit vector. -/
structure State where
  addrs : List Nat
  datas : List Nat
  valids : List Bool
deriving DecidableEq, Repr

/-- Readiness of push: `~valids.all()` — at least one slot is invalid. -/
def push_ready (s : State) : Bool := !(s.valids.all (fun v => v))

/-- The slot chosen by the free-slot arbiter: MultiPriorityEncoder over
`~valids`, output 0, i.e. the lowest index whose valid bit is clear. -/
def free_slot (s : State) : Nat := s.valids.findIdx (fun v => !v)

/-- Effect of a granted push(addr, data): key and value written into the
chosen free slot and its valid bit set, committing at the clock edge. -/
def push (s : State) (k v : Nat) : State :=
  ⟨s.addrs.set (free_slot s) k, s.datas.set (free_slot s) v,
   s.valids.set (free_slot s) true⟩

/-- The combinational match vector of pop: per slot, stored key equals the
searched key AND the slot is valid (`if_addr` in the source). -/
def match_vec (s : State) (k : Nat) : List Bool :=
  List.zipWith (fun v a => v && (a == k)) s.valids s.addrs

/-- The slot chosen by the match arbiter: MultiPriorityEncoder over the
match vector, output 0, i.e. the lowest matching index. -/
def match_idx (s : State) (k : Nat) : Nat :=
  (match_vec s k).findIdx (fun b => b)

/-- Effect and result of pop(addr): on a hit, the matched slot's value is
returned with not_found = false and its valid bit cleared at the clock
edge; on a miss the state is unchanged and the default value 0 is returned
with not_found = true. -/
def pop (s : State) (k : Nat) : State × (Nat × Bool) :=
  if (match_vec s k).any (fun b => b) then
    (⟨s.addrs, s.datas, s.valids.set (match_idx s k) false⟩,
     (s.datas.getD (match_idx s k) 0, false))
  else (s, (0, true))

end CAM

namespace LsuRS

/-- Operation types relevant to the load/store reservation station.
`fence` and `fencei` embed OpType.FENCE and OpType.FENCEI; `load` and
`store` stand for the ordinary memory operation types. -/
inductive OpType where
  | load
  | store
  | fence
  | fencei
deriving DecidableEq, Repr

/-- One slot of the station: the fields of rs_data used by the dependency
computation (rp_s1 — the source-1 register tag, zero when the operand and
hence the address is resolved — plus s1_val and imm, both xlen-bit
register values) and the full/reserved flags of the internal layout. -/
structure Slot where
  rp_s1 : Nat
  s1_val : Nat
  imm : Nat
  full : Bool
  reserved : Bool
deriving DecidableEq, Repr

/-- The default slot (all fields zero, flags clear). -/
def emptySlot : Slot := ⟨0, 0, 0, false, false⟩

/-- LsuRS.calculate_address: the address sum s1_val + imm and its validity
— the entry is full and rs1 is already resolved.  Amaranth widens the
addition by one bit, so the sum keeps its carry and is never truncated to
the register width; the Nat sum embeds it exactly. -/
def calculate_address (e : Slot) : Nat × Bool :=
  (e.s1_val + e.imm, (e.rp_s1 == 0) && e.full)

/-- LsuRS.check_same_address_access: aligned comparison dropping the two
low-order bits (addr >> 2). -/
def check_same_address_access (addr1 addr2 : Nat) : Bool :=
  (addr1 / 4) == (addr2 / 4)

/-- Data carried by an insert call: the rs_data fields used here plus the
operation type. -/
structure InsertData where
  rp_s1 : Nat
  s1_val : Nat
  imm : Nat
  opType : OpType
deriving DecidableEq, Repr

/-- Address-validity of the entry being inserted (this_instr_addr_v):
rs1 already resolved. -/
def newAddrValid (d : InsertData) : Bool := d.rp_s1 == 0

/-- Address of the entry being inserted (this_instr_addr), again the
carry-preserving sum s1_val + imm as the source computes it. -/
def newAddr (d : InsertData) : Nat := d.s1_val + d.imm

/-- The dependency bit computed by insert for one resident slot:
set when the slot's address is not valid, or the inserted entry's address
is not valid, or the two addresses collide under the aligned compare. -/
def dependsBit (e : Slot) (d : InsertData) : Bool :=
  !(calculate_address e).2 || !(newAddrValid d)
    || check_same_address_access (calculate_address e).1 (newAddr d)

/-- The full depends vector computed by insert, one bit per slot. -/
def insertDepends (slots : List Slot) (d : InsertData) : List Bool :=
  slots.map (fun e => dependsBit e d)

/-- Whether the inserted operation is of fence class (FENCE or FENCEI). -/
def isFenceOp : OpType → Bool
  | OpType.fence => true
  | OpType.fencei => true
  | _ => false

/-- Calls attempted in one cycle: an optional insert (slot index plus
data), and a fence-retirement notification.  Modelled from the spec: the
retirement path that clears the fence-pending state is not implemented in
the source (the take and update methods are declared but have no body), so
per the spec the fence blocks acceptance until the fence itself retires,
embodied here as an input that clears the sticky flag. -/
structure Input where
  insertReq : Option (Nat × InsertData)
  retireFence : Bool
deriving DecidableEq, Repr

/-- Whether this cycle's insert carries a fence-class operation
(is_fence_waiting_comb). -/
def fenceInsertNow (inp : Input) : Bool :=
  match inp.insertReq with
  | some p => isFenceOp p.2.opType
  | none => false

/-- Register state of the station: the slot array and the sticky
is_fence_waiting flag. -/
structure State where
  slots : List Slot
  is_fence_waiting : Bool
deriving DecidableEq, Repr

/-- slot_available: not every slot reserved. -/
def slotAvailable (s : State) : Bool := !(s.slots.all (fun e => e.reserved))

/-- Readiness of the select method during a cycle: a slot is available and
no fence is pending, neither sticky (is_fence_waiting) nor combinationally
from an insert happening this very cycle (is_fence_waiting_comb). -/
def selectPossible (s : State) (inp : Input) : Bool :=
  slotAvailable s && !(s.is_fence_waiting || fenceInsertNow inp)

/-- One clock cycle: an insert stores its rs_data into the indexed slot and
sets its full and reserved flags; a fence-class insert sets the sticky
fence flag; fence retirement (Modelled from the spec) clears it. -/
def step (s : State) (inp : Input) : State :=
  let fw :=
    if fenceInsertNow inp then true
    else if inp.retireFence then false
    else s.is_fence_waiting
  let slots2 :=
    match inp.insertReq with
    | some p =>
        s.slots.set p.1 ⟨p.2.rp_s1, p.2.s1_val, p.2.imm, true, true⟩
    | none => s.slots
  ⟨slots2, fw⟩

/-- Iterated cycles. -/
def run (s : State) (inps : List Input) : State := inps.foldl step s

end LsuRS

/-- C8: for every request vector and every k, the priority-encoder
reference model lists the requesting indices in strictly increasing order
(hence no duplicate index), a position is a winner exactly when its request
bit is set, exactly k outputs are produced (all unused ones invalid), and
for requests 0b1011 = 11 with k = 2 the winners are (0, valid) and
(1, valid), index 3 being unselected. -/
theorem enc_select_sorted_nodup_winners (W k input : Nat) :
    List.Pairwise (fun a b => a < b) (Enc.get_expected W input)
    ∧ (∀ i, i ∈ Enc.get_expected W input ↔ (i < W ∧ input.testBit i = true))
    ∧ (Enc.outputs W k input).length = k
    ∧ (∀ j, j < k →
        (Enc.outputs W k input)[j]? = some ((Enc.get_expected W input)[j]?))
    ∧ Enc.outputs 4 2 11 = [some 0, some 1]
    ∧ (some 3 ∉ Enc.outputs 4 2 11) := by
  refine ⟨?_, ?_, ?_, ?_, by decide, by decide⟩
  · exact List.Pairwise.sublist (List.filter_sublist _) (List.pairwise_lt_range W)
  · intro i
    simp [Enc.get_expected, List.mem_filter, List.mem_range]
  · simp [Enc.outputs, List.length_take, List.length_append, List.length_replicate]
  · intro j hj
    unfold Enc.outputs
    rw [List.getElem?_take, if_pos hj]
    by_cases hjl : j < (Enc.get_expected W input).length
    · rw [List.getElem?_append_left
        (by rw [List.length_map]; exact hjl)]
      rw [List.getElem?_map, List.getElem?_eq_getElem hjl]
      rfl
    · rw [List.getElem?_append_right
        (by rw [List.length_map]; omega)]
      rw [List.getElem?_replicate, if_pos (by rw [List.length_map]; omega)]
      have : (Enc.get_expected W input)[j]? = none :=
        List.getElem?_eq_none (by omega)
      rw [this]

/-- Witness for C8: the outputs of the four-bit encoder on requests
0b1011 with two output slots, checked at output position 0. -/
theorem enc_select_sorted_nodup_winners_witness :
    (0 : Nat) < 2 ∧ (Enc.outputs 4 2 11)[0]? = some ((Enc.get_expected 4 11)[0]?) :=
  ⟨by decide, (enc_select_sorted_nodup_winners 4 2 11).2.2.2.1 0 (by decide)⟩

/-- C1 (amended): under safe_writes, write(A, X) then read_req(A) then
read_resp() returns X; and when read_req(A) and write(A, X) run in the same
cycle, the later read_resp() returns the value stored at A before the
write (hence never X when they differ), the conflicting write being
deferred two cycles: the memory is still unchanged one cycle after a
non-conflicting write would have committed, and holds X after the deferred
write transaction has issued it. -/
theorem memory_bank_safe_write_read_hazard
    (mem0 : List Nat) (A X pra0 : Nat) (wap0 : MemoryBank.WriteArgs)
    (hA : A < mem0.length) :
    (MemoryBank.step
        (MemoryBank.run ⟨mem0, false, pra0, false, wap0, none⟩
          [⟨none, some ⟨A, X⟩, false⟩, ⟨some A, none, false⟩])
        ⟨none, none, true⟩).2.resp = some X
    ∧ (MemoryBank.step
        (MemoryBank.run ⟨mem0, false, pra0, false, wap0, none⟩
          [⟨some A, some ⟨A, X⟩, false⟩])
        ⟨none, none, true⟩).2.resp = some (mem0.getD A 0)
    ∧ (mem0.getD A 0 ≠ X →
        (MemoryBank.step
          (MemoryBank.run ⟨mem0, false, pra0, false, wap0, none⟩
            [⟨some A, some ⟨A, X⟩, false⟩])
          ⟨none, none, true⟩).2.resp ≠ some X)
    ∧ (MemoryBank.run ⟨mem0, false, pra0, false, wap0, none⟩
        [⟨some A, some ⟨A, X⟩, false⟩, MemoryBank.nop]).mem = mem0
    ∧ (MemoryBank.run ⟨mem0, false, pra0, false, wap0, none⟩
        [⟨some A, some ⟨A, X⟩, false⟩, MemoryBank.nop, MemoryBank.nop]).mem.getD A 0
        = X := by
  have hset : (mem0.set A X).getD A 0 = X := by
    rw [List.getD_eq_getElem?_getD, List.getElem?_set_self hA]
    rfl
  have hset2 : (mem0.set A X)[A]? = some X := List.getElem?_set_self hA
  refine ⟨?_, ?_, ?_, ?_, ?_⟩ <;>
    simp [MemoryBank.run, MemoryBank.step, MemoryBank.readPortAddr,
      MemoryBank.respNow, MemoryBank.nop, hset, hset2]

/-- Witness for C1: the concrete two-cell bank [7, 8], address 0, data 5. -/
theorem memory_bank_safe_write_read_hazard_witness :
    (MemoryBank.step
        (MemoryBank.run ⟨[7, 8], false, 1, false, ⟨0, 0⟩, none⟩
          [⟨none, some ⟨0, 5⟩, false⟩, ⟨some 0, none, false⟩])
        ⟨none, none, true⟩).2.resp = some 5
    ∧ (MemoryBank.step
        (MemoryBank.run ⟨[7, 8], false, 1, false, ⟨0, 0⟩, none⟩
          [⟨some 0, some ⟨0, 5⟩, false⟩])
        ⟨none, none, true⟩).2.resp = some 7
    ∧ ((7 : Nat) ≠ 5 →
        (MemoryBank.step
          (MemoryBank.run ⟨[7, 8], false, 1, false, ⟨0, 0⟩, none⟩
            [⟨some 0, some ⟨0, 5⟩, false⟩])
          ⟨none, none, true⟩).2.resp ≠ some 5)
    ∧ (MemoryBank.run ⟨[7, 8], false, 1, false, ⟨0, 0⟩, none⟩
        [⟨some 0, some ⟨0, 5⟩, false⟩, MemoryBank.nop]).mem = [7, 8]
    ∧ (MemoryBank.run ⟨[7, 8], false, 1, false, ⟨0, 0⟩, none⟩
        [⟨some 0, some ⟨0, 5⟩, false⟩, MemoryBank.nop,
          MemoryBank.nop]).mem.getD 0 0 = 5 :=
  memory_bank_safe_write_read_hazard [7, 8] 0 5 1 ⟨0, 0⟩ (by decide)

/-- Counterexample to C1 as stated: in the two-cell bank [7, 8], issuing
read_req(0) and write(0, 5) in the same cycle, a write deferred by exactly
one cycle would be visible in the memory two clock edges after the calls;
instead the memory is still [7, 8] at that point and only becomes [5, 8]
one edge later. -/
theorem memory_bank_write_deferred_two_cycles_cex :
    (MemoryBank.run ⟨[7, 8], false, 1, false, ⟨0, 0⟩, none⟩
        [⟨some 0, some ⟨0, 5⟩, false⟩, MemoryBank.nop]).mem = [7, 8]
    ∧ (MemoryBank.run ⟨[7, 8], false, 1, false, ⟨0, 0⟩, none⟩
        [⟨some 0, some ⟨0, 5⟩, false⟩, MemoryBank.nop, MemoryBank.nop]).mem
        = [5, 8] := by
  exact ⟨rfl, rfl⟩

/-- C3 (amended): read_req is ready iff no write is pending at all (the
single write_pending flag gates read_req regardless of address); when ready
it captures the address into the pending-read register, and a second
read_req in the next cycle overwrites the captured address. -/
theorem memory_bank_read_req_ready_and_capture
    (s : MemoryBank.State) (a b : Nat) (w : Option MemoryBank.WriteArgs)
    (r1 r2 : Bool) (hs : s.write_pending = false) :
    ((MemoryBank.step s ⟨some a, w, r1⟩).2.read_req_granted = !s.write_pending)
    ∧ (MemoryBank.step s ⟨some a, none, r1⟩).1.prev_read_addr = a
    ∧ (MemoryBank.step s ⟨some a, none, r1⟩).1.write_pending = false
    ∧ (MemoryBank.step (MemoryBank.step s ⟨some a, none, r1⟩).1
        ⟨some b, none, r2⟩).2.read_req_granted = true
    ∧ (MemoryBank.step (MemoryBank.step s ⟨some a, none, r1⟩).1
        ⟨some b, none, r2⟩).1.prev_read_addr = b := by
  obtain ⟨mem, rov, pra, wp, wap, rb⟩ := s
  simp only at hs
  subst hs
  refine ⟨?_, ?_, ?_, ?_, ?_⟩ <;>
    simp [MemoryBank.step, MemoryBank.readPortAddr, MemoryBank.respNow]

/-- Witness for C3 (amended): a concrete quiescent bank accepting two
consecutive read requests to addresses 0 and 1. -/
theorem memory_bank_read_req_ready_and_capture_witness :
    ((MemoryBank.step (⟨[7, 8], false, 1, false, ⟨0, 0⟩, none⟩ : MemoryBank.State)
        ⟨some 0, none, false⟩).2.read_req_granted = !false)
    ∧ (MemoryBank.step (⟨[7, 8], false, 1, false, ⟨0, 0⟩, none⟩ : MemoryBank.State)
        ⟨some 0, none, false⟩).1.prev_read_addr = 0
    ∧ (MemoryBank.step (⟨[7, 8], false, 1, false, ⟨0, 0⟩, none⟩ : MemoryBank.State)
        ⟨some 0, none, false⟩).1.write_pending = false
    ∧ (MemoryBank.step
        (MemoryBank.step (⟨[7, 8], false, 1, false, ⟨0, 0⟩, none⟩ : MemoryBank.State)
          ⟨some 0, none, false⟩).1
        ⟨some 1, none, false⟩).2.read_req_granted = true
    ∧ (MemoryBank.step
        (MemoryBank.step (⟨[7, 8], false, 1, false, ⟨0, 0⟩, none⟩ : MemoryBank.State)
          ⟨some 0, none, false⟩).1
        ⟨some 1, none, false⟩).1.prev_read_addr = 1 :=
  memory_bank_read_req_ready_and_capture ⟨[7, 8], false, 1, false, ⟨0, 0⟩, none⟩
    0 1 none false false rfl

/-- Counterexample to C3 as stated: after a same-cycle read/write conflict
on address 0 the pending write targets address 0 only, yet a read_req to
the different address 1 — against which no write is pending — is refused. -/
theorem memory_bank_read_req_blocked_cross_address_cex :
    (MemoryBank.run ⟨[7, 8], false, 1, false, ⟨0, 0⟩, none⟩
        [⟨some 0, some ⟨0, 5⟩, false⟩]).write_args_prev.addr = 0
    ∧ (MemoryBank.run ⟨[7, 8], false, 1, false, ⟨0, 0⟩, none⟩
        [⟨some 0, some ⟨0, 5⟩, false⟩]).write_pending = true
    ∧ (MemoryBank.step
        (MemoryBank.run ⟨[7, 8], false, 1, false, ⟨0, 0⟩, none⟩
          [⟨some 0, some ⟨0, 5⟩, false⟩])
        ⟨some 1, none, false⟩).2.read_req_granted = false := by
  exact ⟨rfl, rfl, rfl⟩

/-- C10: whenever write_pending is set, neither read_req nor write is
granted, the saved write arguments and the pending-read register are left
untouched by any new calls, and the deferred write transaction — which
fires exactly when no read response is in flight — drives the memory write
port with the saved write_args_prev and clears write_pending. -/
theorem memory_bank_pending_write_invariant
    (s : MemoryBank.State) (inp : MemoryBank.Input)
    (hp : s.write_pending = true) :
    ((MemoryBank.step s inp).2.read_req_granted = false)
    ∧ ((MemoryBank.step s inp).2.write_granted = false)
    ∧ ((MemoryBank.step s inp).1.write_args_prev = s.write_args_prev)
    ∧ ((MemoryBank.step s inp).1.prev_read_addr = s.prev_read_addr)
    ∧ (s.read_output_valid = false →
        (MemoryBank.step s inp).1.mem
            = s.mem.set s.write_args_prev.addr s.write_args_prev.data
        ∧ (MemoryBank.step s inp).1.write_pending = false)
    ∧ (s.read_output_valid = true →
        (MemoryBank.step s inp).1.mem = s.mem
        ∧ (MemoryBank.step s inp).1.write_pending = true) := by
  obtain ⟨mem, rov, pra, wp, wap, rb⟩ := s
  obtain ⟨rr, wi, rt⟩ := inp
  simp only at hp
  subst hp
  cases rov <;> cases rr <;> cases wi <;>
    simp [MemoryBank.step, MemoryBank.readPortAddr, MemoryBank.respNow]

/-- Witness for C10: a concrete state with a buffered write (0, 5) and no
read in flight; the next cycle issues the saved write. -/
theorem memory_bank_pending_write_invariant_witness :
    ((MemoryBank.step (⟨[7, 8], false, 0, true, ⟨0, 5⟩, none⟩ : MemoryBank.State)
        ⟨some 1, some ⟨1, 9⟩, false⟩).2.read_req_granted = false)
    ∧ ((MemoryBank.step (⟨[7, 8], false, 0, true, ⟨0, 5⟩, none⟩ : MemoryBank.State)
        ⟨some 1, some ⟨1, 9⟩, false⟩).2.write_granted = false)
    ∧ ((MemoryBank.step (⟨[7, 8], false, 0, true, ⟨0, 5⟩, none⟩ : MemoryBank.State)
        ⟨some 1, some ⟨1, 9⟩, false⟩).1.write_args_prev = ⟨0, 5⟩)
    ∧ ((MemoryBank.step (⟨[7, 8], false, 0, true, ⟨0, 5⟩, none⟩ : MemoryBank.State)
        ⟨some 1, some ⟨1, 9⟩, false⟩).1.prev_read_addr = 0)
    ∧ (false = false →
        (MemoryBank.step (⟨[7, 8], false, 0, true, ⟨0, 5⟩, none⟩ : MemoryBank.State)
          ⟨some 1, some ⟨1, 9⟩, false⟩).1.mem = [7, 8].set 0 5
        ∧ (MemoryBank.step (⟨[7, 8], false, 0, true, ⟨0, 5⟩, none⟩ : MemoryBank.State)
          ⟨some 1, some ⟨1, 9⟩, false⟩).1.write_pending = false)
    ∧ (false = true →
        (MemoryBank.step (⟨[7, 8], false, 0, true, ⟨0, 5⟩, none⟩ : MemoryBank.State)
          ⟨some 1, some ⟨1, 9⟩, false⟩).1.mem = [7, 8]
        ∧ (MemoryBank.step (⟨[7, 8], false, 0, true, ⟨0, 5⟩, none⟩ : MemoryBank.State)
          ⟨some 1, some ⟨1, 9⟩, false⟩).1.write_pending = true) :=
  memory_bank_pending_write_invariant ⟨[7, 8], false, 0, true, ⟨0, 5⟩, none⟩
    ⟨some 1, some ⟨1, 9⟩, false⟩ rfl

/-- Characterisation of the chosen free slot: when push is ready, the
arbiter index is in range, points at an invalid slot and every lower index
is valid. -/
theorem free_slot_spec (s : CAM.State) (h : CAM.push_ready s = true) :
    CAM.free_slot s < s.valids.length
    ∧ s.valids[CAM.free_slot s]? = some false
    ∧ (∀ j, j < CAM.free_slot s → s.valids[j]? = some true) := by
  have hex : ∃ x ∈ s.valids, (fun v => !v) x = true := by
    have hall : s.valids.all (fun v => v) = false := by
      unfold CAM.push_ready at h
      exact Bool.not_eq_true' .. |>.mp h
    obtain ⟨x, hx, hpx⟩ := List.all_eq_false.mp hall
    exact ⟨x, hx, by simp at hpx; simp [hpx]⟩
  have hlt : CAM.free_slot s < s.valids.length :=
    List.findIdx_lt_length_of_exists hex
  have hch := (List.findIdx_eq (p := fun v => !v) hlt).mp rfl
  refine ⟨hlt, ?_, ?_⟩
  · rw [List.getElem?_eq_getElem hlt]
    have := hch.1
    simp at this
    rw [this]
  · intro j hj
    have hjlt : j < s.valids.length := lt_trans hj hlt
    rw [List.getElem?_eq_getElem hjlt]
    have := hch.2 j hj
    simp at this
    rw [this]

/-- C6: push is ready iff at least one slot is free; when granted it writes
the key and value into the lowest-indexed free slot (the free-slot arbiter
over the negated valid bits), marks it valid at the clock edge, and leaves
every other slot untouched. -/
theorem cam_push_lowest_free_slot (s : CAM.State) (k v : Nat)
    (hlen1 : s.addrs.length = s.valids.length)
    (hlen2 : s.datas.length = s.valids.length) :
    (CAM.push_ready s = true ↔ ∃ i, i < s.valids.length ∧ s.valids[i]? = some false)
    ∧ (CAM.push_ready s = true →
        CAM.free_slot s < s.valids.length
        ∧ s.valids[CAM.free_slot s]? = some false
        ∧ (∀ j, j < CAM.free_slot s → s.valids[j]? = some true)
        ∧ (CAM.push s k v).addrs[CAM.free_slot s]? = some k
        ∧ (CAM.push s k v).datas[CAM.free_slot s]? = some v
        ∧ (CAM.push s k v).valids[CAM.free_slot s]? = some true
        ∧ (∀ j, j ≠ CAM.free_slot s →
            (CAM.push s k v).addrs[j]? = s.addrs[j]?
            ∧ (CAM.push s k v).datas[j]? = s.datas[j]?
            ∧ (CAM.push s k v).valids[j]? = s.valids[j]?)) := by
  constructor
  · constructor
    · intro h
      obtain ⟨hlt, hfree, _⟩ := free_slot_spec s h
      exact ⟨CAM.free_slot s, hlt, hfree⟩
    · rintro ⟨i, hi, hfalse⟩
      unfold CAM.push_ready
      rw [Bool.not_eq_true', List.all_eq_false]
      refine ⟨false, ?_, by simp⟩
      rw [List.getElem?_eq_getElem hi] at hfalse
      rw [← Option.some_inj.mp hfalse]
      exact List.getElem_mem hi
  · intro h
    obtain ⟨hlt, hfree, hlow⟩ := free_slot_spec s h
    refine ⟨hlt, hfree, hlow, ?_, ?_, ?_, ?_⟩
    · exact List.getElem?_set_self (by omega)
    · exact List.getElem?_set_self (by omega)
    · exact List.getElem?_set_self hlt
    · intro j hj
      exact ⟨List.getElem?_set_ne (fun he => hj he.symm),
        List.getElem?_set_ne (fun he => hj he.symm),
        List.getElem?_set_ne (fun he => hj he.symm)⟩

/-- Witness for C6: a two-slot store whose slot 0 is occupied; push lands
in slot 1. -/
theorem cam_push_lowest_free_slot_witness :
    (CAM.push_ready ⟨[5, 0], [7, 0], [true, false]⟩ = true
      ↔ ∃ i, i < (2 : Nat) ∧ [true, false][i]? = some false)
    ∧ (CAM.push_ready ⟨[5, 0], [7, 0], [true, false]⟩ = true →
        CAM.free_slot ⟨[5, 0], [7, 0], [true, false]⟩ < 2
        ∧ [true, false][CAM.free_slot ⟨[5, 0], [7, 0], [true, false]⟩]? = some false
        ∧ (∀ j, j < CAM.free_slot ⟨[5, 0], [7, 0], [true, false]⟩ →
            [true, false][j]? = some true)
        ∧ (CAM.push ⟨[5, 0], [7, 0], [true, false]⟩ 6 9).addrs[
            CAM.free_slot ⟨[5, 0], [7, 0], [true, false]⟩]? = some 6
        ∧ (CAM.push ⟨[5, 0], [7, 0], [true, false]⟩ 6 9).datas[
            CAM.free_slot ⟨[5, 0], [7, 0], [true, false]⟩]? = some 9
        ∧ (CAM.push ⟨[5, 0], [7, 0], [true, false]⟩ 6 9).valids[
            CAM.free_slot ⟨[5, 0], [7, 0], [true, false]⟩]? = some true
        ∧ (∀ j, j ≠ CAM.free_slot ⟨[5, 0], [7, 0], [true, false]⟩ →
            (CAM.push ⟨[5, 0], [7, 0], [true, false]⟩ 6 9).addrs[j]?
              = [5, 0][j]?
            ∧ (CAM.push ⟨[5, 0], [7, 0], [true, false]⟩ 6 9).datas[j]?
              = [7, 0][j]?
            ∧ (CAM.push ⟨[5, 0], [7, 0], [true, false]⟩ 6 9).valids[j]?
              = [true, false][j]?)) :=
  cam_push_lowest_free_slot ⟨[5, 0], [7, 0], [true, false]⟩ 6 9 rfl rfl

/-- The match vector has the length of the valid vector. -/
theorem match_vec_length (s : CAM.State) (k : Nat)
    (hlen1 : s.addrs.length = s.valids.length) :
    (CAM.match_vec s k).length = s.valids.length := by
  unfold CAM.match_vec
  rw [List.length_zipWith]
  omega

/-- Elementwise description of the match vector. -/
theorem match_vec_getElem (s : CAM.State) (k : Nat) (j : Nat)
    (hlen1 : s.addrs.length = s.valids.length)
    (hj : j < s.valids.length) :
    (CAM.match_vec s k)[j]?
      = some (s.valids.getD j false && (s.addrs.getD j 0 == k)) := by
  have hj2 : j < (CAM.match_vec s k).length := by
    rw [match_vec_length s k hlen1]; exact hj
  rw [List.getElem?_eq_getElem hj2]
  unfold CAM.match_vec at hj2 ⊢
  rw [List.getElem_zipWith]
  have ha : j < s.addrs.length := by omega
  rw [List.getD_eq_getElem?_getD s.valids, List.getElem?_eq_getElem hj,
    List.getD_eq_getElem?_getD s.addrs, List.getElem?_eq_getElem ha,
    Option.getD_some, Option.getD_some]

/-- C7: pop computes the combinational match vector (valid AND key
equality); on a hit it selects the lowest-indexed matching slot, returns
its value with not_found = false and clears exactly that valid bit; on a
miss it is still ready, returning not_found = true and the default value 0
while leaving the state unchanged. -/
theorem cam_pop_match_semantics (s : CAM.State) (k : Nat)
    (hlen1 : s.addrs.length = s.valids.length) :
    ((CAM.match_vec s k).any (fun b => b) = false →
      CAM.pop s k = (s, (0, true)))
    ∧ ((CAM.match_vec s k).any (fun b => b) = true →
      CAM.match_idx s k < s.valids.length
      ∧ (CAM.match_vec s k)[CAM.match_idx s k]? = some true
      ∧ (∀ j, j < CAM.match_idx s k → (CAM.match_vec s k)[j]? = some false)
      ∧ (CAM.pop s k).2 = (s.datas.getD (CAM.match_idx s k) 0, false)
      ∧ (CAM.pop s k).1.addrs = s.addrs
      ∧ (CAM.pop s k).1.datas = s.datas
      ∧ (CAM.pop s k).1.valids = s.valids.set (CAM.match_idx s k) false) := by
  constructor
  · intro h
    unfold CAM.pop
    rw [h]
    rfl
  · intro h
    have hex : ∃ x ∈ CAM.match_vec s k, (fun b => b) x = true :=
      List.any_eq_true.mp h
    have hlt : CAM.match_idx s k < (CAM.match_vec s k).length :=
      List.findIdx_lt_length_of_exists hex
    have hch := (List.findIdx_eq (p := fun b => b) hlt).mp rfl
    have hltv : CAM.match_idx s k < s.valids.length := by
      rw [match_vec_length s k hlen1] at hlt; exact hlt
    have hpop : CAM.pop s k
        = (⟨s.addrs, s.datas, s.valids.set (CAM.match_idx s k) false⟩,
           (s.datas.getD (CAM.match_idx s k) 0, false)) := by
      unfold CAM.pop
      rw [h]
      simp
    refine ⟨hltv, ?_, ?_, ?_, ?_, ?_, ?_⟩
    · rw [List.getElem?_eq_getElem hlt]
      have := hch.1
      simp only at this
      rw [this]
    · intro j hj
      have hjlt : j < (CAM.match_vec s k).length := lt_trans hj hlt
      rw [List.getElem?_eq_getElem hjlt]
      have := hch.2 j hj
      simp only at this
      rw [this]
    · rw [hpop]
    · rw [hpop]
    · rw [hpop]
    · rw [hpop]

/-- Witness for C7: searching key 5 in a store holding (5, 7) in slot 1
(slot 0 valid with key 4, slot 2 invalid). -/
theorem cam_pop_match_semantics_witness :
    ((CAM.match_vec ⟨[4, 5, 0], [1, 7, 0], [true, true, false]⟩ 5).any
        (fun b => b) = false →
      CAM.pop ⟨[4, 5, 0], [1, 7, 0], [true, true, false]⟩ 5
        = (⟨[4, 5, 0], [1, 7, 0], [true, true, false]⟩, (0, true)))
    ∧ ((CAM.match_vec ⟨[4, 5, 0], [1, 7, 0], [true, true, false]⟩ 5).any
        (fun b => b) = true →
      CAM.match_idx ⟨[4, 5, 0], [1, 7, 0], [true, true, false]⟩ 5 < 3
      ∧ (CAM.match_vec ⟨[4, 5, 0], [1, 7, 0], [true, true, false]⟩ 5)[
          CAM.match_idx ⟨[4, 5, 0], [1, 7, 0], [true, true, false]⟩ 5]?
          = some true
      ∧ (∀ j, j < CAM.match_idx ⟨[4, 5, 0], [1, 7, 0], [true, true, false]⟩ 5 →
          (CAM.match_vec ⟨[4, 5, 0], [1, 7, 0], [true, true, false]⟩ 5)[j]?
            = some false)
      ∧ (CAM.pop ⟨[4, 5, 0], [1, 7, 0], [true, true, false]⟩ 5).2
          = ([1, 7, 0].getD
              (CAM.match_idx ⟨[4, 5, 0], [1, 7, 0], [true, true, false]⟩ 5) 0,
             false)
      ∧ (CAM.pop ⟨[4, 5, 0], [1, 7, 0], [true, true, false]⟩ 5).1.addrs
          = [4, 5, 0]
      ∧ (CAM.pop ⟨[4, 5, 0], [1, 7, 0], [true, true, false]⟩ 5).1.datas
          = [1, 7, 0]
      ∧ (CAM.pop ⟨[4, 5, 0], [1, 7, 0], [true, true, false]⟩ 5).1.valids
          = [true, true, false].set
              (CAM.match_idx ⟨[4, 5, 0], [1, 7, 0], [true, true, false]⟩ 5)
              false) :=
  cam_pop_match_semantics ⟨[4, 5, 0], [1, 7, 0], [true, true, false]⟩ 5 rfl

/-- C5 (amended): for every key k and value v, starting from a state in
which no valid slot already holds key k, push(k, v) followed by pop(k)
(with no intervening push) returns (v, not_found = false); and after
pushing until every slot is valid, a further push is not ready. -/
theorem cam_push_pop_round_trip (s : CAM.State) (k v : Nat)
    (hlen1 : s.addrs.length = s.valids.length)
    (hlen2 : s.datas.length = s.valids.length)
    (hready : CAM.push_ready s = true)
    (habsent : ∀ i, i < s.valids.length →
      ¬(s.valids[i]? = some true ∧ s.addrs[i]? = some k)) :
    ((CAM.pop (CAM.push s k v) k).2 = (v, false))
    ∧ (∀ t : CAM.State, t.valids.all (fun b => b) = true →
        CAM.push_ready t = false) := by
  obtain ⟨hlt, hfree, hlow⟩ := free_slot_spec s hready
  refine ⟨?_, ?_⟩
  · have hlen1t : (CAM.push s k v).addrs.length = (CAM.push s k v).valids.length := by
      unfold CAM.push
      simp only [List.length_set]
      exact hlen1
    have hlenv : (CAM.push s k v).valids.length = s.valids.length := by
      unfold CAM.push
      simp only [List.length_set]
    have hmi : (CAM.match_vec (CAM.push s k v) k)[CAM.free_slot s]? = some true := by
      rw [match_vec_getElem (CAM.push s k v) k (CAM.free_slot s) hlen1t
        (by rw [hlenv]; exact hlt)]
      unfold CAM.push
      simp only
      rw [List.getD_eq_getElem?_getD, List.getElem?_set_self hlt,
        List.getD_eq_getElem?_getD, List.getElem?_set_self (by omega)]
      simp
    have hmlow : ∀ j, j < CAM.free_slot s →
        (CAM.match_vec (CAM.push s k v) k)[j]? = some false := by
      intro j hj
      have hjv : j < s.valids.length := lt_trans hj hlt
      rw [match_vec_getElem (CAM.push s k v) k j hlen1t (by rw [hlenv]; exact hjv)]
      have hvj : (CAM.push s k v).valids.getD j false = true := by
        unfold CAM.push
        simp only
        rw [List.getD_eq_getElem?_getD, List.getElem?_set_ne (by omega), hlow j hj]
        rfl
      have haj : ((CAM.push s k v).addrs.getD j 0 == k) = false := by
        have hne := habsent j hjv
        have hgj : s.addrs[j]? = some (s.addrs.getD j 0) := by
          rw [List.getD_eq_getElem?_getD, List.getElem?_eq_getElem (by omega)]
          rfl
        have hnek : s.addrs.getD j 0 ≠ k := by
          intro he
          exact hne ⟨hlow j hj, by rw [hgj, he]⟩
        unfold CAM.push
        simp only
        rw [List.getD_eq_getElem?_getD, List.getElem?_set_ne (by omega),
          ← List.getD_eq_getElem?_getD]
        exact beq_eq_false_iff_ne.mpr hnek
      rw [hvj, haj]
      rfl
    have hltm : CAM.free_slot s < (CAM.match_vec (CAM.push s k v) k).length := by
      rw [match_vec_length (CAM.push s k v) k hlen1t, hlenv]
      exact hlt
    have hmv_i : (CAM.match_vec (CAM.push s k v) k)[CAM.free_slot s] = true := by
      have := List.getElem?_eq_getElem hltm
      rw [this] at hmi
      exact Option.some_inj.mp hmi
    have hidx : CAM.match_idx (CAM.push s k v) k = CAM.free_slot s := by
      unfold CAM.match_idx
      refine (List.findIdx_eq (p := fun b => b) hltm).mpr ⟨?_, ?_⟩
      · exact hmv_i
      · intro j hj
        have hjm : j < (CAM.match_vec (CAM.push s k v) k).length :=
          lt_trans hj hltm
        have := hmlow j hj
        rw [List.getElem?_eq_getElem hjm] at this
        exact Option.some_inj.mp this
    have hany : (CAM.match_vec (CAM.push s k v) k).any (fun b => b) = true := by
      rw [List.any_eq_true]
      refine ⟨true, ?_, rfl⟩
      rw [← hmv_i]
      exact List.getElem_mem hltm
    unfold CAM.pop
    rw [hany, hidx]
    simp only [if_pos]
    have hdat : (CAM.push s k v).datas.getD (CAM.free_slot s) 0 = v := by
      unfold CAM.push
      simp only
      rw [List.getD_eq_getElem?_getD, List.getElem?_set_self (by omega)]
      rfl
    rw [hdat]
  · intro t ht
    unfold CAM.push_ready
    rw [ht]
    rfl

/-- Witness for C5 (amended): pushing (5, 9) into an empty two-slot store
and popping key 5 returns (9, false). -/
theorem cam_push_pop_round_trip_witness :
    ((CAM.pop (CAM.push ⟨[0, 0], [0, 0], [false, false]⟩ 5 9) 5).2 = (9, false))
    ∧ (∀ t : CAM.State, t.valids.all (fun b => b) = true →
        CAM.push_ready t = false) :=
  cam_push_pop_round_trip ⟨[0, 0], [0, 0], [false, false]⟩ 5 9 rfl rfl rfl
    (by decide)

/-- Counterexample to C5 as stated: in a three-slot store, push(5, 7) then
push(5, 9) then pop(5) — the pop directly follows the push of (5, 9), with
slots left free — returns (7, false), the value of the older duplicate of
key 5, not (9, false). -/
theorem cam_push_pop_duplicate_key_cex :
    (CAM.pop (CAM.push (CAM.push ⟨[0, 0, 0], [0, 0, 0], [false, false, false]⟩
        5 7) 5 9) 5).2 = (7, false)
    ∧ (CAM.pop (CAM.push (CAM.push ⟨[0, 0, 0], [0, 0, 0], [false, false, false]⟩
        5 7) 5 9) 5).2 ≠ (9, false)
    ∧ CAM.push_ready (CAM.push ⟨[0, 0, 0], [0, 0, 0], [false, false, false]⟩
        5 7) = true := by
  refine ⟨by decide, by decide, by decide⟩

/-- The depends vector is the per-slot dependency bit. -/
theorem insertDepends_getD (slots : List LsuRS.Slot) (d : LsuRS.InsertData)
    (i : Nat) (hi : i < slots.length) :
    (LsuRS.insertDepends slots d).getD i false
      = LsuRS.dependsBit (slots.getD i LsuRS.emptySlot) d := by
  unfold LsuRS.insertDepends
  rw [List.getD_eq_getElem?_getD, List.getElem?_map,
    List.getElem?_eq_getElem hi, List.getD_eq_getElem?_getD,
    List.getElem?_eq_getElem hi]
  rfl

/-- What insert actually computes: an entry with an unresolved address gets
its dependency bit set against every slot; an entry whose carry-preserving
address sum collides (after dropping the two alignment bits) with exactly
one resident entry's sum — all residents resolved — gets the bit set
against exactly that entry and against no resident whose sum is disjoint.
Note the comparison is on the untruncated sums s1_val + imm, not on the
architectural (wrapped) addresses. -/
theorem lsu_insert_depends_untruncated_tracking (slots : List LsuRS.Slot)
    (d : LsuRS.InsertData) :
    (LsuRS.newAddrValid d = false →
      ∀ i, i < slots.length →
        (LsuRS.insertDepends slots d).getD i false = true)
    ∧ (LsuRS.newAddrValid d = true →
      ∀ j, j < slots.length →
        (∀ i, i < slots.length → (slots.getD i LsuRS.emptySlot).full = true →
          (slots.getD i LsuRS.emptySlot).rp_s1 = 0) →
        (slots.getD j LsuRS.emptySlot).full = true →
        LsuRS.check_same_address_access
          (LsuRS.calculate_address (slots.getD j LsuRS.emptySlot)).1
          (LsuRS.newAddr d) = true →
        (∀ i, i < slots.length → (slots.getD i LsuRS.emptySlot).full = true →
          LsuRS.check_same_address_access
            (LsuRS.calculate_address (slots.getD i LsuRS.emptySlot)).1
            (LsuRS.newAddr d) = true → i = j) →
        ((LsuRS.insertDepends slots d).getD j false = true
          ∧ ∀ i, i < slots.length →
              (slots.getD i LsuRS.emptySlot).full = true → i ≠ j →
              (LsuRS.insertDepends slots d).getD i false = false)) := by
  constructor
  · intro hnv i hi
    rw [insertDepends_getD slots d i hi]
    unfold LsuRS.dependsBit
    rw [hnv]
    simp
  · intro hv j hj hres hfull hmatch huniq
    constructor
    · rw [insertDepends_getD slots d j hj]
      unfold LsuRS.dependsBit
      rw [hmatch]
      simp
    · intro i hi hifull hne
      rw [insertDepends_getD slots d i hi]
      unfold LsuRS.dependsBit
      have hval : (LsuRS.calculate_address (slots.getD i LsuRS.emptySlot)).2
          = true := by
        unfold LsuRS.calculate_address
        rw [hres i hi hifull, hifull]
        rfl
      have hcheck : LsuRS.check_same_address_access
          (LsuRS.calculate_address (slots.getD i LsuRS.emptySlot)).1
          (LsuRS.newAddr d) = false := by
        cases hc : LsuRS.check_same_address_access
            (LsuRS.calculate_address (slots.getD i LsuRS.emptySlot)).1
            (LsuRS.newAddr d)
        · rfl
        · exact absurd (huniq i hi hifull hc) hne
      rw [hval, hv, hcheck]
      rfl

/-- C2: failing input for the dependency tracker.  The resident slot holds
s1_val = 0xFFFFFFFC = 4294967292 with imm = 8, and the inserted entry holds
s1_val = 4 with imm = 0: both are resolved accesses to the architectural
byte address 4 (the sums agree modulo 2^32, hence also after dropping the
two alignment bits), so the conservative comparison the claim states — and
which insert's own comment and the no-false-negative requirement demand —
must set the dependency bit; but check_same_address_access compares the
carry-preserving sums 4294967300 and 4, so insert computes no dependency
at all. -/
theorem lsu_insert_depends_wraparound_missed_conflict :
    ((4294967292 + 8) % 2 ^ 32) = ((4 + 0) % 2 ^ 32)
    ∧ (((4294967292 + 8) % 2 ^ 32) / 4) = (((4 + 0) % 2 ^ 32) / 4)
    ∧ (LsuRS.calculate_address ⟨0, 4294967292, 8, true, true⟩).2 = true
    ∧ LsuRS.newAddrValid ⟨0, 4, 0, LsuRS.OpType.load⟩ = true
    ∧ LsuRS.check_same_address_access
        (LsuRS.calculate_address ⟨0, 4294967292, 8, true, true⟩).1
        (LsuRS.newAddr ⟨0, 4, 0, LsuRS.OpType.load⟩) = false
    ∧ LsuRS.insertDepends [⟨0, 4294967292, 8, true, true⟩]
        ⟨0, 4, 0, LsuRS.OpType.load⟩ = [false] := by
  refine ⟨by norm_num, by norm_num, rfl, rfl, by decide, by decide⟩

/-- A sticky fence flag stays set across any run without a fence
retirement. -/
theorem fence_waiting_sticky (inps : List LsuRS.Input) :
    ∀ t : LsuRS.State, t.is_fence_waiting = true →
      (∀ j ∈ inps, j.retireFence = false) →
      (LsuRS.run t inps).is_fence_waiting = true := by
  induction inps with
  | nil =>
      intro t ht _
      exact ht
  | cons a as ih =>
      intro t ht hr
      have hstep : (LsuRS.step t a).is_fence_waiting = true := by
        unfold LsuRS.step
        cases hf : LsuRS.fenceInsertNow a
        · rw [hr a (List.mem_cons_self a as), ht]
          simp
        · simp
      exact ih (LsuRS.step t a) hstep
        (fun j hj => hr j (List.mem_cons_of_mem a hj))

/-- C4: inserting a fence-class entry makes select unready combinationally
in the very cycle of the insert, sets the sticky fence-pending flag, and in
every subsequent cycle reached without a fence retirement the flag is still
set and select stays unready; a fence-pending state always blocks select,
and a retirement cycle (Modelled from the spec) clears the flag. -/
theorem lsu_fence_blocks_select (s : LsuRS.State) (inp : LsuRS.Input)
    (hf : LsuRS.fenceInsertNow inp = true) :
    LsuRS.selectPossible s inp = false
    ∧ (LsuRS.step s inp).is_fence_waiting = true
    ∧ (∀ inps, (∀ j ∈ inps, j.retireFence = false) →
        (LsuRS.run (LsuRS.step s inp) inps).is_fence_waiting = true
        ∧ ∀ inp2, LsuRS.selectPossible (LsuRS.run (LsuRS.step s inp) inps)
            inp2 = false)
    ∧ (∀ t : LsuRS.State, ∀ inp3 : LsuRS.Input, t.is_fence_waiting = true →
        LsuRS.selectPossible t inp3 = false)
    ∧ (∀ t : LsuRS.State, (LsuRS.step t ⟨none, true⟩).is_fence_waiting
        = false) := by
  have hblock : ∀ t : LsuRS.State, ∀ inp3 : LsuRS.Input,
      t.is_fence_waiting = true → LsuRS.selectPossible t inp3 = false := by
    intro t inp3 ht
    unfold LsuRS.selectPossible
    rw [ht]
    simp
  have hsticky : (LsuRS.step s inp).is_fence_waiting = true := by
    unfold LsuRS.step
    rw [hf]
    simp
  refine ⟨?_, hsticky, ?_, hblock, ?_⟩
  · unfold LsuRS.selectPossible
    rw [hf]
    simp
  · intro inps hr
    have hrun := fence_waiting_sticky inps (LsuRS.step s inp) hsticky hr
    exact ⟨hrun, fun inp2 => hblock _ inp2 hrun⟩
  · intro t
    unfold LsuRS.step
    rfl

/-- Witness for C4: a one-slot empty station receiving a FENCE insert into
slot 0. -/
theorem lsu_fence_blocks_select_witness :
    LsuRS.selectPossible ⟨[LsuRS.emptySlot], false⟩
      ⟨some (0, ⟨0, 0, 0, LsuRS.OpType.fence⟩), false⟩ = false
    ∧ (LsuRS.step ⟨[LsuRS.emptySlot], false⟩
        ⟨some (0, ⟨0, 0, 0, LsuRS.OpType.fence⟩), false⟩).is_fence_waiting
        = true
    ∧ (∀ inps, (∀ j ∈ inps, j.retireFence = false) →
        (LsuRS.run (LsuRS.step ⟨[LsuRS.emptySlot], false⟩
            ⟨some (0, ⟨0, 0, 0, LsuRS.OpType.fence⟩), false⟩)
          inps).is_fence_waiting = true
        ∧ ∀ inp2, LsuRS.selectPossible
            (LsuRS.run (LsuRS.step ⟨[LsuRS.emptySlot], false⟩
              ⟨some (0, ⟨0, 0, 0, LsuRS.OpType.fence⟩), false⟩) inps)
            inp2 = false)
    ∧ (∀ t : LsuRS.State, ∀ inp3 : LsuRS.Input, t.is_fence_waiting = true →
        LsuRS.selectPossible t inp3 = false)
    ∧ (∀ t : LsuRS.State, (LsuRS.step t ⟨none, true⟩).is_fence_waiting
        = false) :=
  lsu_fence_blocks_select ⟨[LsuRS.emptySlot], false⟩
    ⟨some (0, ⟨0, 0, 0, LsuRS.OpType.fence⟩), false⟩ rfl

/-- C9: every winner of the ring reference model is a requesting index that
lies inside the wrapped half-open window [first, last); and concretely, for
width 4 the window [first=2, last=1) considers indices 2, 3, 0 in that
priority order (the output list is exactly the requesting members of
[2, 3, 0], in that order) and never selects the excluded index 1. -/
theorem ring_enc_window_eligibility :
    (∀ W input first last j, first < W → last < W → input < 2 ^ W →
      j ∈ Enc.ring_get_expected W input first last →
      input.testBit j = true ∧ Enc.inWindow W first last j = true)
    ∧ (∀ input, input < 16 →
        Enc.ring_get_expected 4 input 2 1
          = [2, 3, 0].filter (fun i => input.testBit i))
    ∧ (∀ input, input < 16 → 1 ∉ Enc.ring_get_expected 4 input 2 1) := by
  refine ⟨?_, by decide, by decide⟩
  intro W input first last j hf hl hin hmem
  unfold Enc.ring_get_expected at hmem
  simp only [List.mem_map, List.mem_filter, List.mem_range, Bool.and_eq_true,
    decide_eq_true_eq] at hmem
  obtain ⟨i, ⟨hi2W, ⟨⟨hfi, hil⟩, hbit⟩⟩, hj⟩ := hmem
  have hmul : input * 2 ^ W + input = 2 ^ W * input + input := by ring
  rw [hmul, Nat.testBit_mul_pow_two_add input hin i] at hbit
  by_cases hiW : i < W
  · have hji : j = i := by rw [← hj, Nat.mod_eq_of_lt hiW]
    rw [if_pos hiW] at hbit
    subst hji
    refine ⟨hbit, ?_⟩
    by_cases hlf : last < first
    · rw [if_pos hlf] at hil
      simp only [Enc.inWindow, if_pos hlf, Bool.or_eq_true, Bool.and_eq_true,
        decide_eq_true_eq]
      exact Or.inl ⟨hfi, hiW⟩
    · rw [if_neg hlf] at hil
      simp only [Enc.inWindow, if_neg hlf, Bool.and_eq_true, decide_eq_true_eq]
      exact ⟨hfi, hil⟩
  · have hWi : W ≤ i := Nat.le_of_not_lt hiW
    have hiWlt : i - W < W := by omega
    have hji : j = i - W := by
      rw [← hj, Nat.mod_eq_sub_mod hWi, Nat.mod_eq_of_lt hiWlt]
    rw [if_neg hiW] at hbit
    subst hji
    refine ⟨hbit, ?_⟩
    by_cases hlf : last < first
    · rw [if_pos hlf] at hil
      simp only [Enc.inWindow, if_pos hlf, Bool.or_eq_true, Bool.and_eq_true,
        decide_eq_true_eq]
      exact Or.inr (by omega)
    · rw [if_neg hlf] at hil
      omega

/-- Witness for C9: instantiating the general eligibility statement at
W = 4, input = 5 (bits 0 and 2 set), window [2, 1), winner 2. -/
theorem ring_enc_window_eligibility_witness :
    Nat.testBit 5 2 = true ∧ Enc.inWindow 4 2 1 2 = true :=
  ring_enc_window_eligibility.1 4 5 2 1 2 (by decide) (by decide) (by decide)
    (by decide)
